import Mathlib

/-!
Verification of the PDF bot's two core operations (src/BOT.py):
`images_to_pdf` (lines 150-171) and `compress_pdf_to_target_size`
(lines 173-223).

The repository code drives two external libraries, PIL and PyMuPDF
(`fitz`).  The embedding keeps the repository's control flow concrete and
models each library call as a field of an explicit environment record
(`FitzEnv`, `PILEnv`): a call that may raise a Python exception is a
function returning `Option`/`none`.  Byte buffers are lists of naturals;
Python float sizes `len(pdf_bytes) / 1024` are modelled as exact rationals
(the division of an integer below 2^53 by 1024 is exact in binary floating
point, so the model's comparisons agree with the code's).
-/

/-- A byte buffer (`bytes` / `BytesIO` contents in the Python source). -/
abbrev ByteBuf := List Nat

/-- `len(b) / 1024`, the size-in-KB computation of lines 176 and 205 of
src/BOT.py.  Written with `mkRat` (exact rational division, see
`kbSize_eq_div`) so that it evaluates by kernel reduction; the Python
float computation is exact here too, since dividing an integer below 2^53
by the power of two 1024 is exact in binary floating point. -/
def kbSize (b : ByteBuf) : ℚ := mkRat b.length 1024

theorem kbSize_eq_div (b : ByteBuf) : kbSize b = (b.length : ℚ) / 1024 := by
  simp [kbSize, Rat.mkRat_eq_div]

/-- `quality / 100`, the quality argument built at line 195 of src/BOT.py
(`pix.tobytes("jpeg", quality / 100)`).  Written with `mkRat` for kernel
evaluation; see `jpegQualityArg_eq_div`. -/
def jpegQualityArg (quality : Nat) : ℚ := mkRat quality 100

theorem jpegQualityArg_eq_div (quality : Nat) :
    jpegQualityArg quality = (quality : ℚ) / 100 := by
  simp [jpegQualityArg, Rat.mkRat_eq_div]

/-- The fixed rasterization scale `fitz.Matrix(0.8, 0.8)` of line 194 of
src/BOT.py; see `rasterScale_eq_div`. -/
def rasterScale : ℚ := mkRat 8 10

theorem rasterScale_eq_div : rasterScale = (8 : ℚ) / 10 := by
  simp [rasterScale, Rat.mkRat_eq_div]

/-- Content of one PDF page: either original content (as produced by
`fitz.open` on arbitrary input, abstracted by an identifier) or a single
embedded raster image stream (as produced by `new_page.insert_image`,
line 199 of src/BOT.py). -/
inductive PageContent where
  | original (id : Nat)
  | image (data : ByteBuf)
deriving DecidableEq, Repr

/-- A PDF page as the compressor sees it: `page.rect.width`,
`page.rect.height` and its content. -/
structure Page where
  width : ℚ
  height : ℚ
  content : PageContent
deriving DecidableEq, Repr

/-- A rasterized pixel buffer (`fitz.Pixmap`). -/
abbrev Pixmap := List Nat

/-- Abstract interface to the PyMuPDF (`fitz`) calls made by
`compress_pdf_to_target_size`.  A `none` result models the call raising a
Python exception (caught by the `try`/`except` of lines 175/221). -/
structure FitzEnv where
  /-- `fitz.open(stream=pdf_bytes, filetype="pdf")` (lines 182, 214):
  the document as its list of pages, or `none` when opening raises. -/
  openDoc : ByteBuf → Option (List Page)
  /-- `page.get_pixmap(matrix=fitz.Matrix(s, s))` (line 194): rasterize a
  page at scale `s`, or `none` when rasterization raises. -/
  getPixmap : Page → ℚ → Option Pixmap
  /-- `pix.tobytes("jpeg", q)` (line 195): JPEG-encode a pixel buffer with
  quality argument `q`, or `none` when encoding raises. -/
  jpegEncode : Pixmap → ℚ → Option ByteBuf
  /-- `new_doc.save(output, garbage=4, deflate=True, clean=True)`
  (line 201): serialize a page list to bytes. -/
  saveDoc : List Page → ByteBuf

/-- The body of the page loop of one rebuild pass (lines 192-199 of
src/BOT.py): for every page of `pages`, rasterize at matrix scale
`0.8`, JPEG-encode the pixel buffer with quality argument `q`, and build a
fresh page of the original page's width/height hosting that image.
`none` models an exception in any step. -/
def rebuildPages (env : FitzEnv) : List Page → ℚ → Option (List Page)
  | [], _ => some []
  | page :: rest, q => do
    let pix ← env.getPixmap page rasterScale
    let imgBytes ← env.jpegEncode pix q
    let tail ← rebuildPages env rest q
    pure ({ width := page.width, height := page.height,
            content := PageContent.image imgBytes } :: tail)

/-- Record of one completed rebuild pass of the `while` loop
(lines 187-214): the value of the `quality` variable during the pass, the
quality argument passed to `tobytes` (`quality / 100`, line 195), the
pages of the document the pass read, the pages it built, and the candidate
bytes produced by `new_doc.save`. -/
structure PassLog where
  qualityVar : Nat
  jpegArg : ℚ
  srcPages : List Page
  newPages : List Page
  candidate : ByteBuf
deriving DecidableEq, Repr

/-- The `while current_size > target_kb and quality >= 20` loop of
`compress_pdf_to_target_size` (lines 187-214 of src/BOT.py).

Returns the final `pdf_bytes`, the log of completed passes, and a flag
that is `true` exactly when a library call raised (so the value returned
is the one produced by the `except` handler of lines 221-223, which
returns whatever `pdf_bytes` holds at that moment).

Control flow mirrors the source: one iteration rebuilds the current
document at quality argument `quality / 100`, saves it, measures
`current_size = len(compressed_bytes) / 1024`, decrements `quality` by 20
if still over target (lines 207-209), reassigns `pdf_bytes` to the
candidate (line 212) and reopens the candidate as the next working
document (line 214) before re-testing the loop condition.

`fuel` is a structural-recursion device only: the loop body strictly
decreases `quality` by 20 while the loop condition requires
`20 ≤ quality`, so `quality` itself bounds the remaining iterations.
Every call keeps the invariant `quality ≤ fuel` (the entry point passes
`fuel = quality = 80`), under which the `fuel = 0` clause forces
`quality = 0`, where the loop condition is false and the clause returns
exactly what the loop-exit branch returns — so the clause is semantically
the loop exit, never a truncation. -/
def compressLoop (env : FitzEnv) (targetKb : ℚ) (fuel : Nat)
    (pdfBytes : ByteBuf) (doc : List Page) (currentSize : ℚ)
    (quality : Nat) : ByteBuf × List PassLog × Bool :=
  match fuel with
  | 0 => (pdfBytes, [], false)
  | fuel + 1 =>
    if currentSize > targetKb ∧ 20 ≤ quality then
      match rebuildPages env doc (jpegQualityArg quality) with
      | none => (pdfBytes, [], true)
      | some newPages =>
        let compressedBytes := env.saveDoc newPages
        let newSize : ℚ := kbSize compressedBytes
        let entry : PassLog :=
          ⟨quality, jpegQualityArg quality, doc, newPages, compressedBytes⟩
        match env.openDoc compressedBytes with
        | none => (compressedBytes, [entry], true)
        | some doc2 =>
          if newSize > targetKb then
            let r := compressLoop env targetKb fuel compressedBytes doc2
              newSize (quality - 20)
            (r.1, entry :: r.2.1, r.2.2)
          else
            (compressedBytes, [entry], false)
    else
      (pdfBytes, [], false)

/-- `compress_pdf_to_target_size(pdf_bytes, target_kb)`
(lines 173-223 of src/BOT.py).  Result: the returned bytes, the log of
completed rebuild passes, and whether an exception was caught by the
`except` handler (the function itself never propagates one). -/
def compress_pdf_to_target_size (env : FitzEnv) (pdfBytes : ByteBuf)
    (targetKb : ℚ) : ByteBuf × List PassLog × Bool :=
  let currentSize : ℚ := kbSize pdfBytes
  if currentSize ≤ targetKb then
    (pdfBytes, [], false)
  else
    match env.openDoc pdfBytes with
    | none => (pdfBytes, [], true)
    | some doc => compressLoop env targetKb 80 pdfBytes doc currentSize 80

/-- A decoded raster image (`PIL.Image`): its color mode string and pixel
dimensions, plus an identifier for its pixel data. -/
structure Img where
  mode : String
  width : Nat
  height : Nat
  pixels : Nat
deriving DecidableEq, Repr

/-- Abstract interface to the PIL calls made by `images_to_pdf`. -/
structure PILEnv where
  /-- `Image.open(BytesIO(img_bytes))` (line 157 of src/BOT.py): decode an
  image buffer; `none` models the call raising (undecodable input). -/
  imageOpen : ByteBuf → Option Img
  /-- `img.convert(mode)` (line 159): color-mode conversion. -/
  convert : Img → String → Img

/-- One page of the PDF produced by PIL's
`save(format='PDF', save_all=True, append_images=...)` call: a page sized
to the hosted image's pixel dimensions. -/
structure PILPage where
  width : Nat
  height : Nat
  img : Img
deriving DecidableEq, Repr

/-- Output of `images_to_pdf`: `empty` is the zero-length buffer returned
when the image list is empty and the save call is skipped (line 163 guard
`if images:`); `doc` is the saved multi-page PDF. -/
inductive PILOutput where
  | empty
  | doc (pages : List PILPage)
deriving DecidableEq, Repr

/-- The error raised out of `images_to_pdf` when some input buffer is not
a decodable image (PIL's exception from `Image.open`, not caught inside
`images_to_pdf`). -/
inductive AssembleError where
  | decodeError
deriving DecidableEq, Repr

/-- Models PIL's documented `save(format='PDF', save_all=True,
append_images=rest)` semantics (lines 164-169 of src/BOT.py): one page per
image, first the receiver then the appended list in order, each page at
the image's natural pixel dimensions. -/
def pilSaveAll (first : Img) (rest : List Img) : List PILPage :=
  (first :: rest).map fun im => ⟨im.width, im.height, im⟩

/-- The decode loop of `images_to_pdf` (lines 155-160 of src/BOT.py):
decode each buffer in order, convert to RGB when `img.mode != 'RGB'`,
collect in input order.  `none` models the loop raising on the first
undecodable buffer, before any PDF bytes are written. -/
def decodeImages (env : PILEnv) : List ByteBuf → Option (List Img)
  | [] => some []
  | b :: rest => do
    let im ← env.imageOpen b
    let tail ← decodeImages env rest
    pure ((if im.mode ≠ "RGB" then env.convert im "RGB" else im) :: tail)

/-- `images_to_pdf(image_bytes_list)` (lines 150-171 of src/BOT.py):
decode all inputs (aborting with the decode error if any fails), then —
only if the list is non-empty — save them as a single multi-page PDF;
an empty list yields the zero-length buffer `pdf_bytes.getvalue()`. -/
def images_to_pdf (env : PILEnv) (image_bytes_list : List ByteBuf) :
    Except AssembleError PILOutput :=
  match decodeImages env image_bytes_list with
  | none => Except.error AssembleError.decodeError
  | some images =>
    match images with
    | [] => Except.ok PILOutput.empty
    | first :: rest => Except.ok (PILOutput.doc (pilSaveAll first rest))

/-! ## Helper lemmas about the compressor loop -/

theorem compress_pdf_cases (env : FitzEnv) (b : ByteBuf) (t : ℚ) :
    (kbSize b ≤ t ∧ compress_pdf_to_target_size env b t = (b, [], false)) ∨
    (¬ kbSize b ≤ t ∧ env.openDoc b = none ∧
      compress_pdf_to_target_size env b t = (b, [], true)) ∨
    (¬ kbSize b ≤ t ∧ ∃ doc, env.openDoc b = some doc ∧
      compress_pdf_to_target_size env b t =
        compressLoop env t 80 b doc (kbSize b) 80) := by
  by_cases hs : kbSize b ≤ t
  · exact Or.inl ⟨hs, by simp [compress_pdf_to_target_size, hs]⟩
  · cases ho : env.openDoc b with
    | none =>
      exact Or.inr (Or.inl ⟨hs, rfl,
        by simp [compress_pdf_to_target_size, hs, ho]⟩)
    | some doc =>
      exact Or.inr (Or.inr ⟨hs, doc, rfl,
        by simp [compress_pdf_to_target_size, hs, ho]⟩)

/-- Page geometry: width and height (`page.rect` in the source). -/
def pageDims (p : Page) : ℚ × ℚ := (p.width, p.height)

theorem compressLoop_log_length (env : FitzEnv) (t : ℚ) (fuel : Nat)
    (b : ByteBuf) (doc : List Page) (s : ℚ) (q : Nat) :
    (compressLoop env t fuel b doc s q).2.1.length ≤ q / 20 := by
  induction fuel generalizing b doc s q with
  | zero => simp [compressLoop]
  | succ fuel ih =>
    simp only [compressLoop]
    split
    case isTrue h =>
      have h1 : 1 ≤ q / 20 := (Nat.one_le_div_iff (by norm_num)).mpr h.2
      split
      · simp
      case h_2 newPages _ =>
        split
        · simpa using h1
        case h_2 doc2 _ =>
          split
          · have h2 := ih (env.saveDoc newPages) doc2
              (kbSize (env.saveDoc newPages)) (q - 20)
            have h3 : (q - 20) / 20 + 1 = q / 20 := by
              have := Nat.add_div_right (q - 20) (show 0 < 20 by norm_num)
              omega
            simpa [Nat.succ_le, Nat.lt_iff_add_one_le, h3.symm] using
              Nat.add_le_add_right h2 1
          · simpa using h1
    case isFalse h => simp

theorem compressLoop_entry_inv (env : FitzEnv) (t : ℚ) (fuel : Nat)
    (b : ByteBuf) (doc : List Page) (s : ℚ) (q : Nat) (e : PassLog)
    (he : e ∈ (compressLoop env t fuel b doc s q).2.1) :
    e.jpegArg = jpegQualityArg e.qualityVar ∧
    rebuildPages env e.srcPages (jpegQualityArg e.qualityVar) =
      some e.newPages ∧
    e.candidate = env.saveDoc e.newPages := by
  induction fuel generalizing b doc s q with
  | zero => simp [compressLoop] at he
  | succ fuel ih =>
    simp only [compressLoop] at he
    by_cases h : s > t ∧ 20 ≤ q
    · rw [if_pos h] at he
      cases hrb : rebuildPages env doc (jpegQualityArg q) with
      | none => simp [hrb] at he
      | some newPages =>
        simp only [hrb] at he
        cases hopen : env.openDoc (env.saveDoc newPages) with
        | none =>
          simp only [hopen, List.mem_singleton] at he
          subst he
          exact ⟨rfl, hrb, rfl⟩
        | some doc2 =>
          simp only [hopen] at he
          by_cases hsz : kbSize (env.saveDoc newPages) > t
          · rw [if_pos hsz] at he
            simp only [List.mem_cons] at he
            rcases he with he | he
            · subst he
              exact ⟨rfl, hrb, rfl⟩
            · exact ih _ _ _ _ he
          · rw [if_neg hsz] at he
            simp only [List.mem_singleton] at he
            subst he
            exact ⟨rfl, hrb, rfl⟩
    · rw [if_neg h] at he
      simp at he

theorem compressLoop_log_qualityVar (env : FitzEnv) (t : ℚ) (fuel : Nat)
    (b : ByteBuf) (doc : List Page) (s : ℚ) (q : Nat) (i : Nat)
    (e : PassLog)
    (he : (compressLoop env t fuel b doc s q).2.1[i]? = some e) :
    e.qualityVar = q - 20 * i := by
  induction fuel generalizing b doc s q i with
  | zero => simp [compressLoop] at he
  | succ fuel ih =>
    simp only [compressLoop] at he
    by_cases h : s > t ∧ 20 ≤ q
    · rw [if_pos h] at he
      cases hrb : rebuildPages env doc (jpegQualityArg q) with
      | none => simp [hrb] at he
      | some newPages =>
        simp only [hrb] at he
        cases hopen : env.openDoc (env.saveDoc newPages) with
        | none =>
          simp only [hopen] at he
          cases i with
          | zero =>
            simp only [List.getElem?_cons_zero, Option.some_inj] at he
            subst he
            simp
          | succ j => simp at he
        | some doc2 =>
          simp only [hopen] at he
          by_cases hsz : kbSize (env.saveDoc newPages) > t
          · rw [if_pos hsz] at he
            cases i with
            | zero =>
              simp only [List.getElem?_cons_zero, Option.some_inj] at he
              subst he
              simp
            | succ j =>
              simp only [List.getElem?_cons_succ] at he
              have hq := ih _ _ _ _ _ he
              omega
          · rw [if_neg hsz] at he
            cases i with
            | zero =>
              simp only [List.getElem?_cons_zero, Option.some_inj] at he
              subst he
              simp
            | succ j => simp at he
    · rw [if_neg h] at he
      simp at he

theorem compressLoop_log_head (env : FitzEnv) (t : ℚ) (fuel : Nat)
    (b : ByteBuf) (doc : List Page) (s : ℚ) (q : Nat) (e : PassLog)
    (he : (compressLoop env t fuel b doc s q).2.1[0]? = some e) :
    e.srcPages = doc ∧ e.qualityVar = q := by
  cases fuel with
  | zero => simp [compressLoop] at he
  | succ fuel =>
    simp only [compressLoop] at he
    by_cases h : s > t ∧ 20 ≤ q
    · rw [if_pos h] at he
      cases hrb : rebuildPages env doc (jpegQualityArg q) with
      | none => simp [hrb] at he
      | some newPages =>
        simp only [hrb] at he
        cases hopen : env.openDoc (env.saveDoc newPages) with
        | none =>
          simp only [hopen, List.getElem?_cons_zero, Option.some_inj] at he
          subst he
          exact ⟨rfl, rfl⟩
        | some doc2 =>
          simp only [hopen] at he
          by_cases hsz : kbSize (env.saveDoc newPages) > t
          · rw [if_pos hsz] at he
            simp only [List.getElem?_cons_zero, Option.some_inj] at he
            subst he
            exact ⟨rfl, rfl⟩
          · rw [if_neg hsz] at he
            simp only [List.getElem?_cons_zero, Option.some_inj] at he
            subst he
            exact ⟨rfl, rfl⟩
    · rw [if_neg h] at he
      simp at he

theorem compressLoop_chain (env : FitzEnv) (t : ℚ) (fuel : Nat)
    (b : ByteBuf) (doc : List Page) (s : ℚ) (q : Nat) (i : Nat)
    (e e' : PassLog)
    (h1 : (compressLoop env t fuel b doc s q).2.1[i]? = some e)
    (h2 : (compressLoop env t fuel b doc s q).2.1[i + 1]? = some e') :
    kbSize e.candidate > t ∧ env.openDoc e.candidate = some e'.srcPages ∧
    e'.qualityVar = e.qualityVar - 20 := by
  induction fuel generalizing b doc s q i with
  | zero => simp [compressLoop] at h1
  | succ fuel ih =>
    simp only [compressLoop] at h1 h2
    by_cases h : s > t ∧ 20 ≤ q
    · rw [if_pos h] at h1 h2
      cases hrb : rebuildPages env doc (jpegQualityArg q) with
      | none => simp [hrb] at h1
      | some newPages =>
        simp only [hrb] at h1 h2
        cases hopen : env.openDoc (env.saveDoc newPages) with
        | none =>
          simp only [hopen] at h1 h2
          cases i with
          | zero => simp at h2
          | succ j => simp at h1
        | some doc2 =>
          simp only [hopen] at h1 h2
          by_cases hsz : kbSize (env.saveDoc newPages) > t
          · rw [if_pos hsz] at h1 h2
            cases i with
            | zero =>
              simp only [List.getElem?_cons_zero, Option.some_inj] at h1
              simp only [List.getElem?_cons_succ] at h2
              subst h1
              have hh := compressLoop_log_head env t fuel
                (env.saveDoc newPages) doc2 (kbSize (env.saveDoc newPages))
                (q - 20) e' h2
              exact ⟨hsz, by rw [hh.1]; exact hopen, by rw [hh.2]⟩
            | succ j =>
              simp only [List.getElem?_cons_succ] at h1 h2
              exact ih _ _ _ _ _ h1 h2
          · rw [if_neg hsz] at h1 h2
            cases i with
            | zero => simp at h2
            | succ j => simp at h1
    · rw [if_neg h] at h1
      simp at h1

theorem compressLoop_result (env : FitzEnv) (t : ℚ) (fuel : Nat)
    (b : ByteBuf) (doc : List Page) (s : ℚ) (q : Nat) :
    ((compressLoop env t fuel b doc s q).1 = b ∧
      (compressLoop env t fuel b doc s q).2.1 = []) ∨
    ∃ e, (compressLoop env t fuel b doc s q).2.1.getLast? = some e ∧
      (compressLoop env t fuel b doc s q).1 = e.candidate := by
  induction fuel generalizing b doc s q with
  | zero => simp [compressLoop]
  | succ fuel ih =>
    simp only [compressLoop]
    by_cases h : s > t ∧ 20 ≤ q
    · rw [if_pos h]
      cases hrb : rebuildPages env doc (jpegQualityArg q) with
      | none => simp [hrb]
      | some newPages =>
        try rw [hrb]
        dsimp only
        cases hopen : env.openDoc (env.saveDoc newPages) with
        | none =>
          try rw [hopen]
          simp
        | some doc2 =>
          try rw [hopen]
          dsimp only
          by_cases hsz : kbSize (env.saveDoc newPages) > t
          · rw [if_pos hsz]
            rcases ih (env.saveDoc newPages) doc2
              (kbSize (env.saveDoc newPages)) (q - 20) with ⟨hb, hlog⟩ | ⟨e, hlast, hval⟩
            · right
              refine ⟨⟨q, jpegQualityArg q, doc, newPages,
                env.saveDoc newPages⟩, ?_, ?_⟩
              · simp [hlog]
              · exact hb
            · right
              refine ⟨e, ?_, hval⟩
              cases hlog : (compressLoop env t fuel (env.saveDoc newPages)
                  doc2 (kbSize (env.saveDoc newPages)) (q - 20)).2.1 with
              | nil => rw [hlog] at hlast; simp at hlast
              | cons x xs =>
                rw [hlog] at hlast
                dsimp only
                rw [List.getLast?_cons_cons]
                exact hlast
          · rw [if_neg hsz]
            right
            exact ⟨_, rfl, rfl⟩
    · rw [if_neg h]
      simp

theorem rebuildPages_map_pageDims (env : FitzEnv) (ps ps' : List Page)
    (q : ℚ) (h : rebuildPages env ps q = some ps') :
    ps'.map pageDims = ps.map pageDims := by
  induction ps generalizing ps' with
  | nil =>
    simp only [rebuildPages] at h
    cases h
    simp
  | cons p rest ih =>
    simp only [rebuildPages, Option.bind_eq_bind, Option.bind_eq_some] at h
    obtain ⟨pix, _, img, _, tail, htail, hcons⟩ := h
    cases hcons
    simp [pageDims, ih tail htail]

/-! ## Helper lemmas about the assembler -/

theorem decodeImages_none_of_mem (env : PILEnv) (l : List ByteBuf)
    (b : ByteBuf) (hb : b ∈ l) (h : env.imageOpen b = none) :
    decodeImages env l = none := by
  induction l with
  | nil => simp at hb
  | cons a rest ih =>
    rcases List.mem_cons.mp hb with hba | hbr
    · subst hba
      simp [decodeImages, h]
    · cases ha : env.imageOpen a with
      | none => simp [decodeImages, ha]
      | some im => simp [decodeImages, ha, ih hbr]

theorem decodeImages_spec (env : PILEnv) (l : List ByteBuf)
    (imgs : List Img) (h : decodeImages env l = some imgs) :
    imgs.length = l.length ∧
    ∀ (i : Nat) (b' : ByteBuf), l[i]? = some b' →
      ∃ im, env.imageOpen b' = some im ∧
      imgs[i]? =
        some (if im.mode ≠ "RGB" then env.convert im "RGB" else im) := by
  induction l generalizing imgs with
  | nil =>
    simp only [decodeImages] at h
    cases h
    simp
  | cons a rest ih =>
    simp only [decodeImages, Option.bind_eq_bind, Option.bind_eq_some] at h
    obtain ⟨im, him, tail, htail, hcons⟩ := h
    cases hcons
    obtain ⟨hlen, hidx⟩ := ih tail htail
    constructor
    · simpa using hlen
    · intro i b' hb'
      cases i with
      | zero =>
        simp only [List.getElem?_cons_zero, Option.some_inj] at hb'
        subst hb'
        exact ⟨im, him, by simp⟩
      | succ j =>
        simp only [List.getElem?_cons_succ] at hb'
        obtain ⟨im2, him2, hidx2⟩ := hidx j b' hb'
        exact ⟨im2, him2, by simpa using hidx2⟩

theorem decodeImages_total (env : PILEnv) (l : List ByteBuf)
    (hdec : ∀ b ∈ l, ∃ im, env.imageOpen b = some im) :
    ∃ imgs, decodeImages env l = some imgs := by
  induction l with
  | nil => exact ⟨[], rfl⟩
  | cons a rest ih =>
    obtain ⟨im, him⟩ := hdec a (List.mem_cons_self a rest)
    obtain ⟨tail, htail⟩ := ih fun b hb => hdec b (List.mem_cons_of_mem a hb)
    exact ⟨(if im.mode ≠ "RGB" then env.convert im "RGB" else im) :: tail,
      by simp [decodeImages, him, htail]⟩

/-! ## Concrete environments used as inputs to the theorems -/

/-- A fitz environment in which the first rebuild pass succeeds but the
second pass's rasterization raises: `getPixmap` only succeeds on the
4-byte original document.  Used to exercise the `except` handler after a
completed pass. -/
def excEnv : FitzEnv where
  openDoc b := some [⟨612, 792, PageContent.original b.length⟩]
  getPixmap p _ := match p.content with
    | PageContent.original n => if n = 4 then some [9] else none
    | PageContent.image _ => none
  jpegEncode _ _ := some [7, 7, 7]
  saveDoc ps := match ps with
    | [⟨_, _, PageContent.image d⟩] => d
    | _ => []

/-- A fitz environment whose rebuild passes never shrink the document
(the candidate always has the byte length of its source), so a run over
target walks the whole quality ladder 80, 60, 40, 20. -/
def ladderEnv : FitzEnv where
  openDoc b := some [⟨1, 1, PageContent.original b.length⟩]
  getPixmap p _ := match p.content with
    | PageContent.original n => some [n]
    | PageContent.image d => some [d.length]
  jpegEncode pix _ := some (List.replicate (pix.headD 0) 0)
  saveDoc ps := ps.flatMap fun p => match p.content with
    | PageContent.image d => d
    | PageContent.original _ => []

/-- A fitz environment whose saver always emits the one-byte buffer
`[9]`. -/
def constEnv : FitzEnv where
  openDoc _ := some [⟨1, 1, PageContent.original 0⟩]
  getPixmap _ _ := some [0]
  jpegEncode _ _ := some [0]
  saveDoc _ := [9]

/-- A fitz environment whose rebuild pass drops one byte of the document:
every pass's candidate is one byte shorter than its source. -/
def shrinkEnv : FitzEnv where
  openDoc b := some [⟨1, 1, PageContent.original b.length⟩]
  getPixmap p _ := some (match p.content with
    | PageContent.original n => List.replicate n 0
    | PageContent.image d => d)
  jpegEncode pix _ := some (pix.drop 1)
  saveDoc ps := ps.flatMap fun p => match p.content with
    | PageContent.image d => d
    | PageContent.original _ => []

/-- A two-page document with distinct page geometries. -/
def twoPagesDoc : List Page :=
  [⟨612, 792, PageContent.original 1⟩, ⟨200, 100, PageContent.original 2⟩]

/-- A fitz environment that opens any non-empty buffer as `twoPagesDoc`
and saves to the empty buffer (which does not reopen). -/
def twoPagesEnv : FitzEnv where
  openDoc b := if b.length = 0 then none else some twoPagesDoc
  getPixmap _ _ := some [1]
  jpegEncode _ _ := some [2]
  saveDoc _ := []

/-- A PIL environment that fails to decode exactly the buffer `[0]`. -/
def pilFailEnv : PILEnv where
  imageOpen b := if b = [0] then none else some ⟨"RGB", 1, 1, 0⟩
  convert im _ := im

/-- A PIL environment that decodes every buffer to a grayscale image whose
width is the buffer length, and whose `convert` sets the mode and keeps
dimensions and pixel data. -/
def pilGrayEnv : PILEnv where
  imageOpen b := some ⟨"L", b.length, 2, 0⟩
  convert im s := ⟨s, im.width, im.height, im.pixels⟩

/-! ## The claims -/

/-- **C1** (code bug): the `except` handler of
`compress_pdf_to_target_size` (lines 221-223 of src/BOT.py) is commented
`Return original if compression fails`, and the spec states the original,
uncompressed input bytes are returned on any caught failure — including a
failure on a pass after one or more rebuild passes have completed.  The
code instead returns whatever `pdf_bytes` holds when the exception is
raised, and line 212 reassigns `pdf_bytes` to each pass's candidate: here
the 4-byte input `[5, 5, 5, 5]` is rebuilt once into the candidate
`[7, 7, 7]` (still over the 2-byte target), the second pass's
rasterization raises, and the function returns the pass-1 candidate
`[7, 7, 7]`, not the original input. -/
theorem c1_exception_after_pass_returns_candidate :
    (compress_pdf_to_target_size excEnv [5, 5, 5, 5] (mkRat 2 1024)).2.2
      = true ∧
    (compress_pdf_to_target_size excEnv [5, 5, 5, 5]
      (mkRat 2 1024)).2.1.length = 1 ∧
    (compress_pdf_to_target_size excEnv [5, 5, 5, 5] (mkRat 2 1024)).1
      = [7, 7, 7] ∧
    (compress_pdf_to_target_size excEnv [5, 5, 5, 5] (mkRat 2 1024)).1
      ≠ [5, 5, 5, 5] := by
  decide

/-- **C2** (counterexample): the claim says each pass re-encodes at the
ladder's quality level — 80 on the first pass, then 60, 40, 20.  Line 195
of src/BOT.py passes `quality / 100` to the JPEG encoder, so the first
pass's quality argument is 4/5 (the float 0.8), not 80: in this run the
four passes' encoder arguments are 4/5, 3/5, 2/5, 1/5. -/
theorem c2_counterexample_first_pass_arg_not_80 :
    ((compress_pdf_to_target_size ladderEnv [3, 3, 3]
        (mkRat 1 1024)).2.1.map (fun e => e.jpegArg)) =
      [mkRat 4 5, mkRat 3 5, mkRat 2 5, mkRat 1 5] ∧
    (mkRat 4 5 : ℚ) ≠ 80 ∧ (mkRat 3 5 : ℚ) ≠ 60 ∧
    (mkRat 2 5 : ℚ) ≠ 40 ∧ (mkRat 1 5 : ℚ) ≠ 20 := by
  decide

/-- **C2** (amended): in every rebuild pass of
`compress_pdf_to_target_size`, each page's rasterized pixel buffer is
re-encoded as a JPEG with quality argument `quality / 100`, where
`quality` follows the ladder: the 0-indexed pass `i` runs at
`quality = 80 - 20*i`, so the encoder receives 0.8 on the first pass,
then 0.6, 0.4, 0.2 on subsequent failed passes. -/
theorem c2_jpeg_quality_argument_ladder (env : FitzEnv) (b : ByteBuf)
    (t : ℚ) (i : Nat) (e : PassLog)
    (he : (compress_pdf_to_target_size env b t).2.1[i]? = some e) :
    e.qualityVar = 80 - 20 * i ∧
    e.jpegArg = jpegQualityArg (80 - 20 * i) ∧
    rebuildPages env e.srcPages e.jpegArg = some e.newPages := by
  rcases compress_pdf_cases env b t with ⟨_, hc⟩ | ⟨_, _, hc⟩ |
    ⟨_, doc, _, hc⟩
  · rw [hc] at he
    simp at he
  · rw [hc] at he
    simp at he
  · rw [hc] at he
    have hq := compressLoop_log_qualityVar env t 80 b doc (kbSize b) 80 i
      e he
    have hmem : e ∈ (compressLoop env t 80 b doc (kbSize b) 80).2.1 :=
      List.mem_iff_getElem?.mpr ⟨i, he⟩
    have hinv := compressLoop_entry_inv env t 80 b doc (kbSize b) 80 e hmem
    refine ⟨hq, ?_, ?_⟩
    · rw [hinv.1, hq]
    · rw [hinv.1]
      exact hinv.2.1

/-- The second pass of the `ladderEnv` run of the compressor. -/
def ladderEntry1 : PassLog :=
  ⟨60, jpegQualityArg 60, [⟨1, 1, PageContent.original 3⟩],
    [⟨1, 1, PageContent.image [0, 0, 0]⟩], [0, 0, 0]⟩

/-- Witness for `c2_jpeg_quality_argument_ladder` at pass index 1 of a
concrete run. -/
theorem c2_jpeg_quality_argument_ladder_witness :
    (compress_pdf_to_target_size ladderEnv [3, 3, 3]
      (mkRat 1 1024)).2.1[1]? = some ladderEntry1 ∧
    (ladderEntry1.qualityVar = 80 - 20 * 1 ∧
     ladderEntry1.jpegArg = jpegQualityArg (80 - 20 * 1) ∧
     rebuildPages ladderEnv ladderEntry1.srcPages ladderEntry1.jpegArg =
       some ladderEntry1.newPages) :=
  ⟨by decide, c2_jpeg_quality_argument_ladder ladderEnv [3, 3, 3]
    (mkRat 1 1024) 1 ladderEntry1 (by decide)⟩

/-- **C3**: `compress_pdf_to_target_size` always terminates (the model is
a total function) with at most 4 rebuild passes; the 0-indexed pass `i`
runs at quality `80 - 20*i` (hence the sequence 80, 60, 40, 20, and the
loop stops before quality would drop below 20); and a further pass exists
only if the previous pass's candidate was still over target, the next
pass running at quality lowered by exactly 20. -/
theorem c3_at_most_four_passes (env : FitzEnv) (b : ByteBuf) (t : ℚ) :
    (compress_pdf_to_target_size env b t).2.1.length ≤ 4 ∧
    (∀ (i : Nat) (e : PassLog),
      (compress_pdf_to_target_size env b t).2.1[i]? = some e →
      e.qualityVar = 80 - 20 * i ∧ 20 ≤ e.qualityVar) ∧
    (∀ (i : Nat) (e e' : PassLog),
      (compress_pdf_to_target_size env b t).2.1[i]? = some e →
      (compress_pdf_to_target_size env b t).2.1[i + 1]? = some e' →
      kbSize e.candidate > t ∧ e'.qualityVar = e.qualityVar - 20) := by
  rcases compress_pdf_cases env b t with ⟨_, hc⟩ | ⟨_, _, hc⟩ |
    ⟨_, doc, _, hc⟩
  · rw [hc]
    refine ⟨by simp, ?_, ?_⟩
    · intro i e he
      simp at he
    · intro i e e' he _
      simp at he
  · rw [hc]
    refine ⟨by simp, ?_, ?_⟩
    · intro i e he
      simp at he
    · intro i e e' he _
      simp at he
  · rw [hc]
    refine ⟨?_, ?_, ?_⟩
    · exact compressLoop_log_length env t 80 b doc (kbSize b) 80
    · intro i e he
      have hq := compressLoop_log_qualityVar env t 80 b doc (kbSize b) 80
        i e he
      have hlen := compressLoop_log_length env t 80 b doc (kbSize b) 80
      have hi : i < (compressLoop env t 80 b doc (kbSize b) 80).2.1.length := by
        by_contra hh
        push_neg at hh
        rw [List.getElem?_eq_none hh] at he
        exact Option.noConfusion he
      constructor
      · exact hq
      · omega
    · intro i e e' h1 h2
      have hch := compressLoop_chain env t 80 b doc (kbSize b) 80 i e e'
        h1 h2
      exact ⟨hch.1, hch.2.2⟩

/-- Witness for `c3_at_most_four_passes`: a concrete run that never
reaches its target performs exactly the four ladder passes and no more. -/
theorem c3_at_most_four_passes_witness :
    (compress_pdf_to_target_size ladderEnv [3, 3, 3]
      (mkRat 1 1024)).2.1.length ≤ 4 :=
  (c3_at_most_four_passes ladderEnv [3, 3, 3] (mkRat 1 1024)).1

/-- **C4**: when the input already fits the target
(`len(pdf_bytes)/1024 <= target_kb`, lines 176-179 of src/BOT.py),
`compress_pdf_to_target_size` returns the input byte-identical, performs
no rebuild pass (empty pass log), and catches no exception. -/
theorem c4_noop_when_under_target (env : FitzEnv) (b : ByteBuf) (t : ℚ)
    (h : kbSize b ≤ t) :
    compress_pdf_to_target_size env b t = (b, [], false) := by
  simp [compress_pdf_to_target_size, h]

/-- Witness for `c4_noop_when_under_target` on a 2-byte buffer with a
1 KB target. -/
theorem c4_noop_when_under_target_witness :
    kbSize [1, 2] ≤ 1 ∧
    compress_pdf_to_target_size ladderEnv [1, 2] 1 = ([1, 2], [], false) :=
  ⟨by decide, c4_noop_when_under_target ladderEnv [1, 2] 1 (by decide)⟩

/-- **C5**: `compress_pdf_to_target_size` is a total function of its
inputs (the model never propagates an exception: every library failure is
`none` and lands in a handled branch), and the bytes it returns are
either the original input buffer or the output of the fitz saver
(`new_doc.save`, line 201) on the final pass's rebuilt pages — never some
other buffer produced silently.  `P` abstracts any guarantee of the
saver, e.g. "is a valid PDF document". -/
theorem c5_result_original_or_saved (env : FitzEnv) (b : ByteBuf) (t : ℚ)
    (P : ByteBuf → Prop) (hsave : ∀ ps, P (env.saveDoc ps)) :
    (compress_pdf_to_target_size env b t).1 = b ∨
    P ((compress_pdf_to_target_size env b t).1) := by
  rcases compress_pdf_cases env b t with ⟨_, hc⟩ | ⟨_, _, hc⟩ |
    ⟨_, doc, _, hc⟩
  · left
    rw [hc]
  · left
    rw [hc]
  · rw [hc]
    rcases compressLoop_result env t 80 b doc (kbSize b) 80 with
      ⟨h1, _⟩ | ⟨e, hlast, hval⟩
    · left
      exact h1
    · right
      rw [hval]
      have hmem : e ∈ (compressLoop env t 80 b doc (kbSize b) 80).2.1 := by
        obtain ⟨hne, heq⟩ :=
          List.mem_getLast?_eq_getLast (Option.mem_def.mpr hlast)
        rw [heq]
        exact List.getLast_mem hne
      have hinv := compressLoop_entry_inv env t 80 b doc (kbSize b) 80 e
        hmem
      rw [hinv.2.2]
      exact hsave e.newPages

/-- Witness for `c5_result_original_or_saved`: with a saver that always
emits `[9]`, the returned bytes are the input or `[9]`. -/
theorem c5_result_original_or_saved_witness :
    (compress_pdf_to_target_size constEnv [5, 5] (mkRat 1 1024)).1 = [5, 5] ∨
    (compress_pdf_to_target_size constEnv [5, 5] (mkRat 1 1024)).1 = [9] :=
  c5_result_original_or_saved constEnv [5, 5] (mkRat 1 1024)
    (fun x => x = [9]) (fun _ => rfl)

/-- **C6**: if one rebuild never enlarges a document (re-encoding at
reduced scale/quality does not increase size — the spec's stated premise
about the codec), then, because each pass of the loop re-opens and
re-rasterizes the *previous pass's candidate* (lines 212-214 of
src/BOT.py), successive candidates' serialized sizes are non-increasing
along the pass log. -/
theorem c6_candidate_sizes_nonincreasing (env : FitzEnv) (b : ByteBuf)
    (t : ℚ)
    (hstep : ∀ (bb : ByteBuf) (doc : List Page) (q : ℚ) (ps' : List Page),
      env.openDoc bb = some doc → rebuildPages env doc q = some ps' →
      (env.saveDoc ps').length ≤ bb.length)
    (i : Nat) (e e' : PassLog)
    (h1 : (compress_pdf_to_target_size env b t).2.1[i]? = some e)
    (h2 : (compress_pdf_to_target_size env b t).2.1[i + 1]? = some e') :
    e'.candidate.length ≤ e.candidate.length := by
  rcases compress_pdf_cases env b t with ⟨_, hc⟩ | ⟨_, _, hc⟩ |
    ⟨_, doc, _, hc⟩
  · rw [hc] at h1
    simp at h1
  · rw [hc] at h1
    simp at h1
  · rw [hc] at h1 h2
    have hch := compressLoop_chain env t 80 b doc (kbSize b) 80 i e e'
      h1 h2
    have hmem : e' ∈ (compressLoop env t 80 b doc (kbSize b) 80).2.1 :=
      List.mem_iff_getElem?.mpr ⟨i + 1, h2⟩
    have hinv := compressLoop_entry_inv env t 80 b doc (kbSize b) 80 e'
      hmem
    rw [hinv.2.2]
    exact hstep e.candidate e'.srcPages (jpegQualityArg e'.qualityVar)
      e'.newPages hch.2.1 hinv.2.1

/-- First pass of the `shrinkEnv` run on byte buffer `[7, 7, 7]`. -/
def shrinkEntry0 : PassLog :=
  ⟨80, jpegQualityArg 80, [⟨1, 1, PageContent.original 3⟩],
    [⟨1, 1, PageContent.image [0, 0]⟩], [0, 0]⟩

/-- Second pass of the `shrinkEnv` run on byte buffer `[7, 7, 7]`. -/
def shrinkEntry1 : PassLog :=
  ⟨60, jpegQualityArg 60, [⟨1, 1, PageContent.original 2⟩],
    [⟨1, 1, PageContent.image [0]⟩], [0]⟩

/-- Witness for `c6_candidate_sizes_nonincreasing` on a concrete
two-pass run whose rebuild drops one byte per pass. -/
theorem c6_candidate_sizes_nonincreasing_witness :
    (compress_pdf_to_target_size shrinkEnv [7, 7, 7]
      (mkRat 1 1024)).2.1[0]? = some shrinkEntry0 ∧
    (compress_pdf_to_target_size shrinkEnv [7, 7, 7]
      (mkRat 1 1024)).2.1[0 + 1]? = some shrinkEntry1 ∧
    shrinkEntry1.candidate.length ≤ shrinkEntry0.candidate.length :=
  ⟨by decide, by decide,
    c6_candidate_sizes_nonincreasing shrinkEnv [7, 7, 7] (mkRat 1 1024)
      (by
        intro bb doc q ps' hod hrb
        simp only [shrinkEnv] at hod
        cases hod
        simp only [shrinkEnv, rebuildPages, rasterScale,
          Option.bind_eq_bind, Option.bind_eq_some, Option.some_inj] at hrb
        obtain ⟨pix, hpix, img, himg, tail, htail, hps⟩ := hrb
        cases hpix
        cases himg
        cases htail
        cases hps
        simp [shrinkEnv])
      0 shrinkEntry0 shrinkEntry1 (by decide) (by decide)⟩

/-- **C7**: if any buffer of the input sequence is not decodable
(`Image.open` raises, line 157 of src/BOT.py), `images_to_pdf` fails with
the decode error and produces no output at all: the decode loop
(lines 156-160) runs before the save call (lines 163-169), so no PDF
bytes are written and no partial PDF is returned. -/
theorem c7_decode_failure_aborts (env : PILEnv) (l : List ByteBuf)
    (b : ByteBuf) (hb : b ∈ l) (h : env.imageOpen b = none) :
    images_to_pdf env l = Except.error AssembleError.decodeError := by
  simp [images_to_pdf, decodeImages_none_of_mem env l b hb h]

/-- Witness for `c7_decode_failure_aborts`: a two-element input whose
second buffer is undecodable. -/
theorem c7_decode_failure_aborts_witness :
    [0] ∈ [[1], [0]] ∧ pilFailEnv.imageOpen [0] = none ∧
    images_to_pdf pilFailEnv [[1], [0]] =
      Except.error AssembleError.decodeError :=
  ⟨by decide, by decide,
    c7_decode_failure_aborts pilFailEnv [[1], [0]] [0] (by decide)
      (by decide)⟩

/-- **C8**: for a non-empty sequence of decodable images, `images_to_pdf`
returns a single PDF with exactly one page per input image; page `i`
hosts the image decoded from input `i` (converted to RGB when needed, a
conversion that preserves pixel dimensions) at its natural pixel
dimensions, and pages appear in exactly the input order. -/
theorem c8_one_page_per_image_in_order (env : PILEnv) (l : List ByteBuf)
    (hne : l ≠ [])
    (hdec : ∀ b ∈ l, ∃ im, env.imageOpen b = some im)
    (hconv : ∀ (im : Img) (s : String),
      (env.convert im s).width = im.width ∧
      (env.convert im s).height = im.height) :
    ∃ pages : List PILPage,
      images_to_pdf env l = Except.ok (PILOutput.doc pages) ∧
      pages.length = l.length ∧
      ∀ (i : Nat) (b' : ByteBuf), l[i]? = some b' →
        ∃ im, env.imageOpen b' = some im ∧
          pages[i]? = some ⟨im.width, im.height,
            if im.mode ≠ "RGB" then env.convert im "RGB" else im⟩ := by
  obtain ⟨imgs, hdi⟩ := decodeImages_total env l hdec
  obtain ⟨hlen, hidx⟩ := decodeImages_spec env l imgs hdi
  cases imgs with
  | nil =>
    cases l with
    | nil => exact absurd rfl hne
    | cons a rest => simp at hlen
  | cons first rest =>
    refine ⟨pilSaveAll first rest, ?_, ?_, ?_⟩
    · simp [images_to_pdf, hdi]
    · simpa [pilSaveAll] using hlen
    · intro i b' hb'
      obtain ⟨im, him, hi⟩ := hidx i b' hb'
      refine ⟨im, him, ?_⟩
      have hmp : (pilSaveAll first rest)[i]? =
          ((first :: rest).map fun im2 =>
            (⟨im2.width, im2.height, im2⟩ : PILPage))[i]? := rfl
      rw [hmp, List.getElem?_map, hi]
      by_cases hm : im.mode = "RGB"
      · simp [hm]
      · simp only [hm, ne_eq, not_false_iff, if_true, Option.map_some,
          if_neg hm]
        have hw := (hconv im "RGB").1
        have hh := (hconv im "RGB").2
        simp [hw, hh]

/-- Witness for `c8_one_page_per_image_in_order`: two grayscale images of
different sizes come back as a two-page PDF in input order, converted to
RGB with dimensions intact. -/
theorem c8_one_page_per_image_in_order_witness :
    ∃ pages : List PILPage,
      images_to_pdf pilGrayEnv [[1], [2, 2]] =
        Except.ok (PILOutput.doc pages) ∧
      pages.length = [[1], [2, 2]].length ∧
      ∀ (i : Nat) (b' : ByteBuf), [[1], [2, 2]][i]? = some b' →
        ∃ im, pilGrayEnv.imageOpen b' = some im ∧
          pages[i]? = some ⟨im.width, im.height,
            if im.mode ≠ "RGB" then pilGrayEnv.convert im "RGB" else im⟩ :=
  c8_one_page_per_image_in_order pilGrayEnv [[1], [2, 2]] (by decide)
    (fun b _ => ⟨⟨"L", b.length, 2, 0⟩, rfl⟩) (fun im s => ⟨rfl, rfl⟩)


/-- **C9**: every rebuild pass preserves document structure: the pages a
pass builds (`newPages`) are exactly as many as the pages of the document
it was built from (`srcPages`) and have pairwise the same width/height
(lines 192-199 of src/BOT.py build each new page with
`width=page.rect.width, height=page.rect.height`); and — assuming the
fitz save/open round trip preserves page geometry (`hrt`) — every pass's
pages carry the page count and dimensions of the input document, so the
returned PDF's page structure matches the input's. -/
theorem c9_page_count_and_dims_preserved (env : FitzEnv) (b : ByteBuf)
    (t : ℚ) (doc0 : List Page) (hopen : env.openDoc b = some doc0)
    (hrt : ∀ (ps ps' : List Page),
      env.openDoc (env.saveDoc ps) = some ps' →
      ps'.map pageDims = ps.map pageDims)
    (i : Nat) (e : PassLog)
    (he : (compress_pdf_to_target_size env b t).2.1[i]? = some e) :
    e.newPages.map pageDims = e.srcPages.map pageDims ∧
    e.newPages.map pageDims = doc0.map pageDims ∧
    e.newPages.length = doc0.length := by
  rcases compress_pdf_cases env b t with ⟨_, hc⟩ | ⟨_, ho, hc⟩ |
    ⟨_, doc, ho, hc⟩
  · rw [hc] at he
    simp at he
  · rw [ho] at hopen
    exact Option.noConfusion hopen
  · rw [ho] at hopen
    cases hopen
    rw [hc] at he
    have hdoc : ∀ (j : Nat) (ej : PassLog),
        (compressLoop env t 80 b doc0 (kbSize b) 80).2.1[j]? = some ej →
        ej.newPages.map pageDims = ej.srcPages.map pageDims ∧
        ej.newPages.map pageDims = doc0.map pageDims := by
      intro j
      induction j with
      | zero =>
        intro ej hej
        have hh := compressLoop_log_head env t 80 b doc0 (kbSize b) 80 ej
          hej
        have hmem : ej ∈ (compressLoop env t 80 b doc0 (kbSize b) 80).2.1 :=
          List.mem_iff_getElem?.mpr ⟨0, hej⟩
        have hinv := compressLoop_entry_inv env t 80 b doc0 (kbSize b) 80
          ej hmem
        have hd := rebuildPages_map_pageDims env ej.srcPages ej.newPages
          (jpegQualityArg ej.qualityVar) hinv.2.1
        exact ⟨hd, by rw [hd, hh.1]⟩
      | succ k ih =>
        intro ej hej
        have hk : k <
            (compressLoop env t 80 b doc0 (kbSize b) 80).2.1.length := by
          by_contra hh
          push_neg at hh
          have hle : (compressLoop env t 80 b doc0 (kbSize b) 80).2.1.length
              ≤ k + 1 := by omega
          rw [List.getElem?_eq_none hle] at hej
          exact Option.noConfusion hej
        have hprev : (compressLoop env t 80 b doc0 (kbSize b) 80).2.1[k]? =
            some ((compressLoop env t 80 b doc0 (kbSize b) 80).2.1.get ⟨k, hk⟩) :=
          List.getElem?_eq_getElem hk
        obtain ⟨hprev1, hprev2⟩ := ih _ hprev
        have hch := compressLoop_chain env t 80 b doc0 (kbSize b) 80 k _ ej
          hprev hej
        have hmemp : (compressLoop env t 80 b doc0 (kbSize b) 80).2.1.get ⟨k, hk⟩
            ∈ (compressLoop env t 80 b doc0 (kbSize b) 80).2.1 :=
          List.mem_iff_getElem?.mpr ⟨k, hprev⟩
        have hinvp := compressLoop_entry_inv env t 80 b doc0 (kbSize b) 80
          _ hmemp
        have hmem : ej ∈ (compressLoop env t 80 b doc0 (kbSize b) 80).2.1 :=
          List.mem_iff_getElem?.mpr ⟨k + 1, hej⟩
        have hinv := compressLoop_entry_inv env t 80 b doc0 (kbSize b) 80
          ej hmem
        have hd := rebuildPages_map_pageDims env ej.srcPages ej.newPages
          (jpegQualityArg ej.qualityVar) hinv.2.1
        have hsrc : ej.srcPages.map pageDims =
            ((compressLoop env t 80 b doc0 (kbSize b)
              80).2.1.get ⟨k, hk⟩).newPages.map pageDims := by
          apply hrt
          rw [← hinvp.2.2]
          exact hch.2.1
        refine ⟨hd, ?_⟩
        rw [hd, hsrc]
        exact hprev2
    obtain ⟨hd1, hd2⟩ := hdoc i e he
    refine ⟨hd1, hd2, ?_⟩
    have := congrArg List.length hd2
    simpa using this

/-- The single pass of the `twoPagesEnv` run on byte buffer `[5, 5]`. -/
def twoPagesEntry : PassLog :=
  ⟨80, jpegQualityArg 80, twoPagesDoc,
    [⟨612, 792, PageContent.image [2]⟩, ⟨200, 100, PageContent.image [2]⟩],
    []⟩

/-- Witness for `c9_page_count_and_dims_preserved` on a concrete two-page
document with distinct page geometries. -/
theorem c9_page_count_and_dims_preserved_witness :
    (compress_pdf_to_target_size twoPagesEnv [5, 5]
      (mkRat 1 1024)).2.1[0]? = some twoPagesEntry ∧
    (twoPagesEntry.newPages.map pageDims =
        twoPagesEntry.srcPages.map pageDims ∧
      twoPagesEntry.newPages.map pageDims = twoPagesDoc.map pageDims ∧
      twoPagesEntry.newPages.length = twoPagesDoc.length) :=
  ⟨by decide,
    c9_page_count_and_dims_preserved twoPagesEnv [5, 5] (mkRat 1 1024)
      twoPagesDoc (by decide)
      (by
        intro ps ps' h
        simp [twoPagesEnv] at h)
      0 twoPagesEntry (by decide)⟩

/-- **C10**: on the empty input sequence, `images_to_pdf` does not raise
and returns the explicitly handled empty result: the `if images:` guard
(line 163 of src/BOT.py) skips the PDF save entirely and the function
returns the zero-length buffer `pdf_bytes.getvalue()`. -/
theorem c10_empty_input_returns_empty (env : PILEnv) :
    images_to_pdf env [] = Except.ok PILOutput.empty := rfl

/-- Witness for `c10_empty_input_returns_empty` at a concrete
environment. -/
theorem c10_empty_input_returns_empty_witness :
    images_to_pdf pilFailEnv [] = Except.ok PILOutput.empty :=
  c10_empty_input_returns_empty pilFailEnv
